import Mathlib

/-!
# Verification of the PropertyLoop real-estate assistant

A shallow embedding of the PropertyLoop frontend (`App.tsx`) and of the
analysis pipeline described in the design document, together with proofs
of the stated invariants.

The frontend component `App` keeps four pieces of state: the message
transcript, the text input, the optional location string, and the last
analysis received from the backend (`lastAnalysis`).  The two handlers
`onDrop` (image upload) and `handleSendMessage` (chat) are modelled as
state transitions parameterised by the outcome of the network call.
-/

namespace PropertyLoop

/-- The `type` discriminator of the frontend `Message` interface. -/
inductive Role where
  | user
  | bot
  deriving DecidableEq, Repr

/-- The frontend `Message` interface: `{ type, content, imageUrl? }`. -/
structure Message where
  type : Role
  content : String
  imageUrl : Option String := none
  deriving DecidableEq, Repr

/-- The React component state of `App`, over an arbitrary analysis payload
type `α` (the TypeScript state uses `any` for `lastAnalysis`). -/
structure AppState (α : Type) where
  messages : List Message
  input : String
  location : String
  loading : Bool
  lastAnalysis : Option α
  deriving DecidableEq, Repr

/-- Body of a successful `/upload-image` response as read by `onDrop`. -/
structure UploadResponse (α : Type) where
  last_analysis : Option α
  image_url : Option String
  response : String
  deriving DecidableEq, Repr

/-- Body of the `/chat` request assembled by `handleSendMessage`. -/
structure ChatRequest (α : Type) where
  message : String
  location : Option String
  last_analysis : Option α
  deriving DecidableEq, Repr

/-- Body of a successful `/chat` response as read by `handleSendMessage`. -/
structure ChatResponse (α : Type) where
  response : String
  last_analysis : Option α
  deriving DecidableEq, Repr

/-- Models JavaScript `String.prototype.trim`: drop leading and trailing
whitespace characters. -/
def jsTrim (s : String) : String :=
  ⟨((s.data.dropWhile Char.isWhitespace).reverse.dropWhile
      Char.isWhitespace).reverse⟩

/-- Models the TypeScript expression `location || undefined`: the empty
string is falsy, so it is sent as `undefined` (absent); any non-empty
string is passed through verbatim. -/
def orUndefined (s : String) : Option String :=
  if s = "" then none else some s

/-- Models `if (response.data.last_analysis) setLastAnalysis(...)`: the
stored analysis is replaced only when the response carries a truthy
`last_analysis`; otherwise the previous value is kept. -/
def applyAnalysis (prev : Option α) (delivered : Option α) : Option α :=
  match delivered with
  | some a => some a
  | none => prev

/-- Fallback bot message appended by the `catch` branch of `onDrop`. -/
def uploadErrorText : String :=
  "Sorry, there was an error processing your image. Please try again."

/-- Fallback bot message appended by the `catch` branch of
`handleSendMessage`. -/
def chatErrorText : String :=
  "Sorry, I encountered an error. Please try again."

/-- Content of the user turn appended by a successful upload. -/
def uploadUserText : String := "Uploaded image for analysis"

/-- The file posted by `onDrop`: `acceptedFiles[0]`, or nothing at all
when the accepted-file list is empty (the handler returns early). -/
def uploadRequestFile (acceptedFiles : List String) : Option String :=
  acceptedFiles.head?

/-- The `onDrop` handler.  `outcome` is the result of the
`axios.post(/upload-image)` call: `Except.ok` a response body, or
`Except.error` for a rejected promise handled by the `catch` branch. -/
def onDrop (st : AppState α) (acceptedFiles : List String)
    (outcome : Except Unit (UploadResponse α)) : AppState α :=
  match acceptedFiles with
  | [] => st
  | _file :: _ =>
    match outcome with
    | .ok resp =>
      { st with
        lastAnalysis := applyAnalysis st.lastAnalysis resp.last_analysis
        messages := st.messages ++
          [{ type := .user, content := uploadUserText, imageUrl := resp.image_url },
           { type := .bot, content := resp.response }]
        loading := false }
    | .error _ =>
      { st with
        messages := st.messages ++ [{ type := .bot, content := uploadErrorText }]
        loading := false }

/-- The `useDropzone` configuration object passed in `App`. -/
structure DropzoneConfig where
  acceptMime : String
  acceptExts : List String
  maxFiles : Nat
  deriving DecidableEq, Repr

/-- `useDropzone({ onDrop, accept: { image/* : [...] }, maxFiles: 1 })`. -/
def dropzoneConfig : DropzoneConfig :=
  { acceptMime := "image/*"
    acceptExts := [".jpeg", ".jpg", ".png", ".gif"]
    maxFiles := 1 }

/-- The `/chat` request assembled by `handleSendMessage` from the current
state: trimmed message, `location || undefined`, and `lastAnalysis`. -/
def chatRequest (st : AppState α) : ChatRequest α :=
  { message := jsTrim st.input
    location := orUndefined st.location
    last_analysis := st.lastAnalysis }

/-- The part of `handleSendMessage` that runs before the `axios.post`
call: the input field is cleared and the user's turn is appended. -/
def sendPre (st : AppState α) : AppState α :=
  { st with
    input := ""
    messages := st.messages ++ [{ type := .user, content := jsTrim st.input }]
    loading := true }

/-- The part of `handleSendMessage` that handles the settled promise:
append the bot reply (or the error fallback) and update `lastAnalysis`
when the response carries one. -/
def sendPost (st : AppState α) (outcome : Except Unit (ChatResponse α)) :
    AppState α :=
  match outcome with
  | .ok resp =>
    { st with
      messages := st.messages ++ [{ type := .bot, content := resp.response }]
      lastAnalysis := applyAnalysis st.lastAnalysis resp.last_analysis
      loading := false }
  | .error _ =>
    { st with
      messages := st.messages ++ [{ type := .bot, content := chatErrorText }]
      loading := false }

/-- The `handleSendMessage` handler: `if (!input.trim()) return;` guards
the whole body; otherwise the pre-request phase runs, then the settled
network call is handled. -/
def handleSendMessage (st : AppState α)
    (outcome : Except Unit (ChatResponse α)) : AppState α :=
  if jsTrim st.input = "" then st else sendPost (sendPre st) outcome

/-- One user-visible operation on the `App` state. -/
inductive Event (α : Type) where
  | upload (acceptedFiles : List String) (outcome : Except Unit (UploadResponse α))
  | chat (outcome : Except Unit (ChatResponse α))

/-- The transition function of the frontend state machine. -/
def step (st : AppState α) : Event α → AppState α
  | .upload files o => onDrop st files o
  | .chat o => handleSendMessage st o

/-- The analysis record carried by an event's successful response body,
if any. -/
def deliveredAnalysis : Event α → Option α
  | .upload _ (.ok resp) => resp.last_analysis
  | .chat (.ok resp) => resp.last_analysis
  | .upload _ (.error _) => none
  | .chat (.error _) => none

/-- `handleSendMessage` in state `st`, or `onDrop`, stores record `r`:
the guard passes and the successful response carries `last_analysis = r`. -/
def putsRecord (st : AppState α) (e : Event α) (r : α) : Prop :=
  match e with
  | .upload files o => files ≠ [] ∧ ∃ resp, o = .ok resp ∧ resp.last_analysis = some r
  | .chat o => jsTrim st.input ≠ "" ∧ ∃ resp, o = .ok resp ∧ resp.last_analysis = some r

/-- Every step either leaves `lastAnalysis` unchanged or overwrites it
with the record delivered by that event's response. -/
theorem step_lastAnalysis (st : AppState α) (e : Event α) :
    (step st e).lastAnalysis = st.lastAnalysis ∨
      ∃ r, deliveredAnalysis e = some r ∧ (step st e).lastAnalysis = some r := by
  cases e with
  | upload files o =>
    cases files with
    | nil => exact Or.inl rfl
    | cons f fs =>
      cases o with
      | ok resp =>
        cases h : resp.last_analysis with
        | none =>
          exact Or.inl (by simp [step, onDrop, applyAnalysis, h])
        | some r =>
          exact Or.inr ⟨r, by simp [deliveredAnalysis, h],
            by simp [step, onDrop, applyAnalysis, h]⟩
      | error u => exact Or.inl (by simp [step, onDrop])
  | chat o =>
    by_cases hin : jsTrim st.input = ""
    · exact Or.inl (by simp [step, handleSendMessage, hin])
    · cases o with
      | ok resp =>
        cases h : resp.last_analysis with
        | none =>
          exact Or.inl
            (by simp [step, handleSendMessage, hin, sendPost, sendPre, applyAnalysis, h])
        | some r =>
          exact Or.inr ⟨r, by simp [deliveredAnalysis, h],
            by simp [step, handleSendMessage, hin, sendPost, sendPre, applyAnalysis, h]⟩
      | error u =>
        exact Or.inl (by simp [step, handleSendMessage, hin, sendPost, sendPre])

/-- A stored record survives any event trace: afterwards `lastAnalysis`
is still some record, namely the original one or one delivered by a
later event of the trace. -/
theorem foldl_lastAnalysis (es : List (Event α)) (st : AppState α) (r : α)
    (h : st.lastAnalysis = some r) :
    ∃ r2, (List.foldl step st es).lastAnalysis = some r2 ∧
      (r2 = r ∨ ∃ e2 ∈ es, deliveredAnalysis e2 = some r2) := by
  induction es generalizing st r with
  | nil => exact ⟨r, h, Or.inl rfl⟩
  | cons e es ih =>
    rcases step_lastAnalysis st e with hkeep | ⟨r', hdel, hset⟩
    · rcases ih (step st e) r (hkeep.trans h) with ⟨r2, h2, hcase⟩
      refine ⟨r2, h2, ?_⟩
      rcases hcase with h3 | ⟨e2, he2, hd⟩
      · exact Or.inl h3
      · exact Or.inr ⟨e2, List.mem_cons_of_mem e he2, hd⟩
    · rcases ih (step st e) r' hset with ⟨r2, h2, hcase⟩
      refine ⟨r2, h2, Or.inr ?_⟩
      rcases hcase with h3 | ⟨e2, he2, hd⟩
      · exact ⟨e, List.mem_cons_self e es, h3 ▸ hdel⟩
      · exact ⟨e2, List.mem_cons_of_mem e he2, hd⟩

/-- A fresh `App` state: empty transcript, empty input and location, no
analysis yet (the React initial state, at payload type `Nat`). -/
def emptyState : AppState Nat :=
  { messages := [], input := "", location := "", loading := false, lastAnalysis := none }

/-- A state with pending input "hi", location "London" and a stored
analysis, used to instantiate the general theorems. -/
def filledState : AppState Nat :=
  { messages := [], input := "hi", location := "London", loading := false,
    lastAnalysis := some 3 }

/-- A successful upload response delivering analysis record `7`. -/
def uploadOk7 : UploadResponse Nat :=
  { last_analysis := some 7, image_url := some "http://img/1", response := "done" }

/-- C1: after a successful response carrying `last_analysis = r` is
handled, the stored `lastAnalysis` read by the next chat request is
exactly `some r`; and after any further events it is still some record —
either `r` itself or one delivered by a strictly later response — never
a stale or partial one. -/
theorem store_visibility (st : AppState α) (e : Event α) (r : α)
    (es : List (Event α)) (h : putsRecord st e r) :
    (step st e).lastAnalysis = some r ∧
      ∃ r2, (List.foldl step (step st e) es).lastAnalysis = some r2 ∧
        (r2 = r ∨ ∃ e2 ∈ es, deliveredAnalysis e2 = some r2) := by
  have hput : (step st e).lastAnalysis = some r := by
    cases e with
    | upload files o =>
      rcases h with ⟨hne, resp, rfl, hla⟩
      cases files with
      | nil => exact absurd rfl hne
      | cons f fs => simp [step, onDrop, applyAnalysis, hla]
    | chat o =>
      rcases h with ⟨hne, resp, rfl, hla⟩
      simp [step, handleSendMessage, hne, sendPost, sendPre, applyAnalysis, hla]
  exact ⟨hput, foldl_lastAnalysis es _ r hput⟩

/-- C1 witness: uploading one image whose response carries record `7`
into the fresh state makes `lastAnalysis = some 7`, and it stays a
stored record over the empty continuation trace. -/
theorem store_visibility_witness :
    (step emptyState (Event.upload ["a.png"] (Except.ok uploadOk7))).lastAnalysis
        = some 7 ∧
      ∃ r2, (List.foldl step
          (step emptyState (Event.upload ["a.png"] (Except.ok uploadOk7)))
          []).lastAnalysis = some r2 ∧
        (r2 = 7 ∨ ∃ e2 ∈ ([] : List (Event Nat)), deliveredAnalysis e2 = some r2) :=
  store_visibility emptyState (Event.upload ["a.png"] (Except.ok uploadOk7)) 7 []
    ⟨by simp, uploadOk7, rfl, rfl⟩

/-- C4 counterexample: in the fresh state the user "sends" an empty
message; `handleSendMessage` returns early, so the transcript stays
empty — no clarification request (no reply at all) is surfaced, the
empty message is silently dropped, contrary to the claim. -/
theorem empty_message_silently_dropped :
    (handleSendMessage emptyState
        (Except.ok { response := "hello", last_analysis := some 5 })).messages = [] := by
  decide

/-- C4 (amended): an empty (or whitespace-only) user message is rejected
client-side before any request: `handleSendMessage` leaves the state
unchanged — no turn is appended, no request is sent, and the stored
analysis is not mutated; in particular no clarification reply is
surfaced. -/
theorem empty_message_noop (st : AppState α)
    (outcome : Except Unit (ChatResponse α)) (h : jsTrim st.input = "") :
    handleSendMessage st outcome = st := by
  simp [handleSendMessage, h]

/-- C4 witness: the amended no-op behaviour at the fresh state. -/
theorem empty_message_noop_witness :
    handleSendMessage emptyState (Except.error ()) = emptyState :=
  empty_message_noop emptyState (Except.error ()) (by decide)

/-- C6: every operation — image upload or chat, successful or failed —
only appends turns at the end of the transcript: the new message list is
the old one followed by some suffix, so no existing turn is removed,
reordered or rewritten. -/
theorem transcript_append_only (st : AppState α) (e : Event α) :
    ∃ suffix, (step st e).messages = st.messages ++ suffix := by
  cases e with
  | upload files o =>
    cases files with
    | nil => exact ⟨[], by simp [step, onDrop]⟩
    | cons f fs =>
      cases o with
      | ok resp =>
        exact ⟨[{ type := .user, content := uploadUserText, imageUrl := resp.image_url },
            { type := .bot, content := resp.response }], by simp [step, onDrop]⟩
      | error u =>
        exact ⟨[{ type := .bot, content := uploadErrorText }], by simp [step, onDrop]⟩
  | chat o =>
    by_cases hin : jsTrim st.input = ""
    · exact ⟨[], by simp [step, handleSendMessage, hin]⟩
    · cases o with
      | ok resp =>
        exact ⟨[{ type := .user, content := jsTrim st.input },
            { type := .bot, content := resp.response }],
          by simp [step, handleSendMessage, hin, sendPost, sendPre]⟩
      | error u =>
        exact ⟨[{ type := .user, content := jsTrim st.input },
            { type := .bot, content := chatErrorText }],
          by simp [step, handleSendMessage, hin, sendPost, sendPre]⟩

/-- C7: the location hint is attached to the assembled `/chat` request
verbatim when it is non-empty, and omitted (`undefined`) when it is the
empty string, which the code treats as absent. -/
theorem location_hint_verbatim (st : AppState α) :
    (st.location ≠ "" → (chatRequest st).location = some st.location) ∧
      (st.location = "" → (chatRequest st).location = none) := by
  constructor <;> intro h <;> simp [chatRequest, orUndefined, h]

/-- C7 witness: the hint "London" is attached verbatim; the empty hint
is omitted. -/
theorem location_hint_verbatim_witness :
    (chatRequest filledState).location = some "London" ∧
      (chatRequest emptyState).location = none :=
  ⟨(location_hint_verbatim filledState).1 (by simp [filledState]),
    (location_hint_verbatim emptyState).2 rfl⟩

/-- C8: once `lastAnalysis` is non-null it stays non-null after any
event; moreover an event whose response delivers no analysis leaves the
previous analysis exactly in place. -/
theorem lastAnalysis_preserved (st : AppState α) (e : Event α) :
    (st.lastAnalysis.isSome → (step st e).lastAnalysis.isSome) ∧
      (deliveredAnalysis e = none →
        (step st e).lastAnalysis = st.lastAnalysis) := by
  constructor
  · intro h
    rcases step_lastAnalysis st e with hk | ⟨r, _, hs⟩
    · rw [hk]; exact h
    · rw [hs]; rfl
  · intro h
    rcases step_lastAnalysis st e with hk | ⟨r, hd, _⟩
    · exact hk
    · rw [h] at hd; cases hd

/-- C8 witness: a failed chat request leaves the stored analysis `3` of
`filledState` in place and non-null. -/
theorem lastAnalysis_preserved_witness :
    ((step filledState (Event.chat (Except.error ()))).lastAnalysis).isSome ∧
      (step filledState (Event.chat (Except.error ()))).lastAnalysis
        = filledState.lastAnalysis :=
  ⟨(lastAnalysis_preserved filledState (Event.chat (Except.error ()))).1 rfl,
    (lastAnalysis_preserved filledState (Event.chat (Except.error ()))).2 rfl⟩

/-- C9: `onDrop` is a no-op on an empty accepted-file list (state
unchanged, no file posted); with files accepted it posts exactly the
first one; and the dropzone is configured with `maxFiles = 1` for image
files only. -/
theorem onDrop_first_file (st : AppState α)
    (outcome : Except Unit (UploadResponse α)) (f : String) (fs : List String) :
    onDrop st [] outcome = st ∧
      uploadRequestFile [] = none ∧
      uploadRequestFile (f :: fs) = some f ∧
      dropzoneConfig.maxFiles = 1 ∧
      dropzoneConfig.acceptMime = "image/*" :=
  ⟨rfl, rfl, rfl, rfl, rfl⟩

/-- C10: for a non-empty message the user's turn is appended and the
input cleared already in the pre-request phase, so after a failed
request the transcript still holds that user turn followed by the error
reply, and the input stays cleared — the turn is not rolled back. -/
theorem user_turn_persists (st : AppState α) (h : jsTrim st.input ≠ "") :
    (sendPre st).messages
        = st.messages ++ [{ type := .user, content := jsTrim st.input }] ∧
      (sendPre st).input = "" ∧
      (handleSendMessage st (Except.error ())).messages
        = st.messages ++ [{ type := .user, content := jsTrim st.input },
            { type := .bot, content := chatErrorText }] ∧
      (handleSendMessage st (Except.error ())).input = "" := by
  refine ⟨rfl, rfl, ?_, ?_⟩ <;>
    simp [handleSendMessage, h, sendPost, sendPre]

/-- C10 witness: in `filledState` (input "hi") a failed chat leaves the
user turn "hi" followed by the error reply, with the input cleared. -/
theorem user_turn_persists_witness :
    (handleSendMessage filledState (Except.error ())).messages
        = [{ type := Role.user, content := "hi" },
           { type := Role.bot, content := chatErrorText }] ∧
      (handleSendMessage filledState (Except.error ())).input = "" := by
  have htrim : jsTrim filledState.input = "hi" := by decide
  have h := user_turn_persists filledState (by decide)
  exact ⟨by simpa [filledState, htrim] using h.2.2.1, h.2.2.2⟩

/-!
## The analysis pipeline

The backend implementing the Feature Normalizer and the Response
Composer is not part of the checked-in sources; the definitions below
are modelled from the design document.
-/

/-- The fixed issue taxonomy of the data model. -/
inductive Label where
  | structural
  | water
  | mold
  | cosmetic
  | other
  deriving DecidableEq, Repr

/-- Taxonomy priority used for tie-breaking: structural > water > mold >
cosmetic > other; a smaller number means higher priority. -/
def Label.priority : Label → Nat
  | .structural => 0
  | .water => 1
  | .mold => 2
  | .cosmetic => 3
  | .other => 4

/-- All taxonomy labels, listed in priority order. -/
def allLabels : List Label :=
  [.structural, .water, .mold, .cosmetic, .other]

/-- Modelled from the spec: the Feature Normalizer maps raw detection
labels into the fixed taxonomy ("water stain" and "crack" as in
Scenario A); labels outside the taxonomy map to `other` rather than
being dropped. -/
def mapLabel (s : String) : Label :=
  if s = "structural-damage" ∨ s = "crack" then .structural
  else if s = "water-damage" ∨ s = "water stain" then .water
  else if s = "mold" then .mold
  else if s = "cosmetic-wear" then .cosmetic
  else .other

/-- Severity tiers derived from confidence. -/
inductive Severity where
  | low
  | medium
  | high
  deriving DecidableEq, Repr

/-- Modelled from the spec: out-of-range scores are clamped into the
interval [0,1], not rejected. -/
def clampScore (s : ℚ) : ℚ := max 0 (min 1 s)

/-- Modelled from the spec: fixed threshold bands — confidence ≥ 0.75
gives high, ≥ 0.4 gives medium, otherwise low. -/
def severityOf (c : ℚ) : Severity :=
  if 3 / 4 ≤ c then .high else if 2 / 5 ≤ c then .medium else .low

/-- One detected property problem. -/
structure Issue where
  label : Label
  confidence : ℚ
  severity : Severity
  region : Option String := none
  deriving DecidableEq, Repr

/-- First normalization stage: map each raw detection into the taxonomy
and clamp its score. -/
def mapDetections (raw : List (String × ℚ)) : List (Label × ℚ) :=
  raw.map (fun p => (mapLabel p.1, clampScore p.2))

/-- The clamped scores attached to taxonomy label `l`. -/
def labelScores (mapped : List (Label × ℚ)) (l : Label) : List ℚ :=
  (mapped.filter (fun p => p.1 = l)).map Prod.snd

/-- Maximum of a list of scores, `none` on the empty list. -/
def maxScore : List ℚ → Option ℚ
  | [] => none
  | s :: rest => some (rest.foldl max s)

/-- The merged entry contributed by taxonomy label `l`, if any. -/
def mergeF (mapped : List (Label × ℚ)) (l : Label) : Option (Label × ℚ) :=
  (maxScore (labelScores mapped l)).map (fun m => (l, m))

/-- Modelled from the spec: duplicate detections of one label are
merged, keeping the maximum confidence; each taxonomy label contributes
at most one entry. -/
def mergeDetections (mapped : List (Label × ℚ)) : List (Label × ℚ) :=
  allLabels.filterMap (mergeF mapped)

/-- Build the `Issue` for one merged entry. -/
def toIssue (p : Label × ℚ) : Issue :=
  { label := p.1, confidence := p.2, severity := severityOf p.2 }

/-- The output order of the normalizer: descending confidence, ties
broken by taxonomy priority. -/
def issueLE (a b : Issue) : Prop :=
  b.confidence < a.confidence ∨
    (a.confidence = b.confidence ∧ a.label.priority ≤ b.label.priority)

instance : DecidableRel issueLE := fun a b => by
  unfold issueLE; infer_instance

instance : IsTotal Issue issueLE :=
  ⟨fun a b => by
    rcases lt_trichotomy a.confidence b.confidence with h | h | h
    · exact Or.inr (Or.inl h)
    · rcases Nat.le_total a.label.priority b.label.priority with hp | hp
      · exact Or.inl (Or.inr ⟨h, hp⟩)
      · exact Or.inr (Or.inr ⟨h.symm, hp⟩)
    · exact Or.inl (Or.inl h)⟩

instance : IsTrans Issue issueLE :=
  ⟨fun a b c hab hbc => by
    rcases hab with hab | ⟨hab, hpab⟩
    · rcases hbc with hbc | ⟨hbc, _⟩
      · exact Or.inl (lt_trans hbc hab)
      · exact Or.inl (by rw [← hbc]; exact hab)
    · rcases hbc with hbc | ⟨hbc, hpbc⟩
      · exact Or.inl (by rw [hab]; exact hbc)
      · exact Or.inr ⟨hab.trans hbc, le_trans hpab hpbc⟩⟩

/-- Modelled from the spec: the Feature Normalizer,
`normalize(rawDetections) -> sequence<Issue>`: taxonomy mapping and
clamping, per-label merge keeping the maximum confidence, severity
banding, and sorting by descending confidence with taxonomy-priority
tie-break. -/
def normalize (rawDetections : List (String × ℚ)) : List Issue :=
  List.insertionSort issueLE
    ((mergeDetections (mapDetections rawDetections)).map toIssue)

/-- The raw scores of the input entries that map to taxonomy label `l`. -/
def occurrences (raw : List (String × ℚ)) (l : Label) : List ℚ :=
  (raw.filter (fun p => mapLabel p.1 = l)).map Prod.snd

lemma mergeF_fst (mapped : List (Label × ℚ)) (l' : Label) (p : Label × ℚ)
    (h : mergeF mapped l' = some p) : p.1 = l' := by
  rcases Option.map_eq_some'.mp h with ⟨m, _, rfl⟩
  rfl

lemma mem_allLabels (l : Label) : l ∈ allLabels := by
  cases l <;> decide

lemma filter_filterMap_keys (f : Label → Option (Label × ℚ))
    (hf : ∀ l' p, f l' = some p → p.1 = l') (L : List Label) (l : Label) :
    (L.filterMap f).filter (fun p => p.1 = l)
      = (L.filter (fun l' => l' = l)).filterMap f := by
  induction L with
  | nil => rfl
  | cons a L ih =>
    cases hfa : f a with
    | none =>
      by_cases h : a = l
      · subst h
        simp [List.filterMap_cons, List.filter_cons, hfa, ih]
      · simp [List.filterMap_cons, List.filter_cons, hfa, h, ih]
    | some p =>
      have hp : p.1 = a := hf a p hfa
      by_cases h : a = l
      · subst h
        simp [List.filterMap_cons, List.filter_cons, hfa, hp, ih]
      · have hp' : ¬p.1 = l := by rw [hp]; exact h
        simp [List.filterMap_cons, List.filter_cons, hfa, h, hp', ih]

lemma map_fst_filterMap_sublist (f : Label → Option (Label × ℚ))
    (hf : ∀ l' p, f l' = some p → p.1 = l') (L : List Label) :
    ((L.filterMap f).map Prod.fst).Sublist L := by
  induction L with
  | nil => simp
  | cons a L ih =>
    cases hfa : f a with
    | none =>
      simp only [List.filterMap_cons, hfa]
      exact ih.cons a
    | some p =>
      have hp : p.1 = a := hf a p hfa
      simp only [List.filterMap_cons, hfa, List.map_cons, hp]
      exact ih.cons₂ a

lemma nodup_keys_mergeDetections (mapped : List (Label × ℚ)) :
    ((mergeDetections mapped).map Prod.fst).Nodup :=
  (map_fst_filterMap_sublist (mergeF mapped) (mergeF_fst mapped) allLabels).nodup
    (by decide)

lemma filter_allLabels_self (l : Label) :
    allLabels.filter (fun l' => l' = l) = [l] := by
  cases l <;> rfl

lemma filter_mergeDetections (mapped : List (Label × ℚ)) (l : Label) :
    (mergeDetections mapped).filter (fun p => p.1 = l)
      = (maxScore (labelScores mapped l)).toList.map (fun m => (l, m)) := by
  rw [mergeDetections,
    filter_filterMap_keys (mergeF mapped) (mergeF_fst mapped) allLabels l,
    filter_allLabels_self]
  cases hm : maxScore (labelScores mapped l) with
  | none => simp [List.filterMap_cons, mergeF, hm]
  | some m => simp [List.filterMap_cons, mergeF, hm]

lemma labelScores_mapDetections (raw : List (String × ℚ)) (l : Label) :
    labelScores (mapDetections raw) l = (occurrences raw l).map clampScore := by
  unfold labelScores mapDetections occurrences
  rw [List.filter_map, List.map_map, List.map_map]
  rfl

lemma clampScore_of_mem_unit (s : ℚ) (h0 : 0 ≤ s) (h1 : s ≤ 1) :
    clampScore s = s := by
  unfold clampScore
  rw [min_eq_right h1, max_eq_right h0]

lemma labelScores_ne_nil_iff (mapped : List (Label × ℚ)) (l : Label) :
    labelScores mapped l ≠ [] ↔ l ∈ mapped.map Prod.fst := by
  simp only [labelScores, Ne, List.map_eq_nil_iff, List.filter_eq_nil_iff,
    decide_eq_true_eq, List.mem_map]
  push_neg
  constructor
  · rintro ⟨p, hp, hpl⟩
    exact ⟨p, hp, hpl⟩
  · rintro ⟨p, hp, hpl⟩
    exact ⟨p, hp, hpl⟩

lemma mem_keys_mergeDetections (mapped : List (Label × ℚ)) (l : Label) :
    l ∈ (mergeDetections mapped).map Prod.fst ↔ l ∈ mapped.map Prod.fst := by
  constructor
  · intro h
    rcases List.mem_map.mp h with ⟨p, hp, rfl⟩
    rcases List.mem_filterMap.mp hp with ⟨a, _, hfa⟩
    have ha : p.1 = a := mergeF_fst mapped a p hfa
    rcases Option.map_eq_some'.mp hfa with ⟨m, hm, _⟩
    rw [ha]
    rw [← labelScores_ne_nil_iff]
    intro hnil
    rw [hnil] at hm
    cases hm
  · intro h
    have hne : labelScores mapped l ≠ [] := (labelScores_ne_nil_iff mapped l).mpr h
    cases hls : labelScores mapped l with
    | nil => exact absurd hls hne
    | cons s rest =>
      have : mergeF mapped l = some (l, rest.foldl max s) := by
        rw [mergeF, hls]; rfl
      exact List.mem_map.mpr ⟨(l, rest.foldl max s),
        List.mem_filterMap.mpr ⟨l, mem_allLabels l, this⟩, rfl⟩

lemma normalize_labels_perm (raw : List (String × ℚ)) :
    List.Perm ((normalize raw).map Issue.label)
      ((mergeDetections (mapDetections raw)).map Prod.fst) := by
  have h := (List.perm_insertionSort issueLE
    ((mergeDetections (mapDetections raw)).map toIssue)).map Issue.label
  simpa [List.map_map, Function.comp, toIssue] using h

/-- C2 (spec-modelled): the output labels of `normalize` are pairwise
distinct and are exactly the (taxonomy-mapped) input labels; and when
the input's detections for label `l` are exactly two duplicates with
in-range scores `s1`, `s2`, the single merged Issue for `l` has
confidence `max s1 s2`. -/
theorem normalize_merge_invariant :
    (∀ raw : List (String × ℚ),
        ((normalize raw).map Issue.label).Nodup ∧
          ∀ l : Label, l ∈ (normalize raw).map Issue.label ↔
            l ∈ (mapDetections raw).map Prod.fst) ∧
      ∀ (raw : List (String × ℚ)) (l : Label) (s1 s2 : ℚ),
        0 ≤ s1 → s1 ≤ 1 → 0 ≤ s2 → s2 ≤ 1 →
        occurrences raw l = [s1, s2] →
        ((normalize raw).filter (fun i => i.label = l)).map Issue.confidence
          = [max s1 s2] := by
  constructor
  · intro raw
    have hperm := normalize_labels_perm raw
    constructor
    · exact hperm.nodup_iff.mpr (nodup_keys_mergeDetections _)
    · intro l
      rw [hperm.mem_iff, mem_keys_mergeDetections]
  · intro raw l s1 s2 h0 h1 h2 h3 hocc
    have hls : labelScores (mapDetections raw) l = [s1, s2] := by
      rw [labelScores_mapDetections, hocc, List.map_cons, List.map_cons,
        List.map_nil, clampScore_of_mem_unit s1 h0 h1,
        clampScore_of_mem_unit s2 h2 h3]
    have hmerged : (mergeDetections (mapDetections raw)).filter
        (fun p => p.1 = l) = [(l, max s1 s2)] := by
      rw [filter_mergeDetections, hls]
      rfl
    have hfil : ((mergeDetections (mapDetections raw)).map toIssue).filter
        (fun i => i.label = l) = [toIssue (l, max s1 s2)] := by
      rw [List.filter_map]
      show ((mergeDetections (mapDetections raw)).filter
        (fun p => p.1 = l)).map toIssue = _
      rw [hmerged]
      rfl
    have hperm := (List.perm_insertionSort issueLE
      ((mergeDetections (mapDetections raw)).map toIssue)).filter
      (fun i => decide (i.label = l))
    rw [hfil] at hperm
    have hout : (normalize raw).filter (fun i => i.label = l)
        = [toIssue (l, max s1 s2)] := List.perm_singleton.mp hperm
    rw [hout]
    rfl

/-- Scenario A input: two duplicate water-stain detections and a crack. -/
def rawA : List (String × ℚ) :=
  [("water stain", 0.82), ("water stain", 0.5), ("crack", 0.3)]

/-- C2 witness: on the Scenario A input, output labels are distinct and
the merged water-damage confidence is `max 0.82 0.5`. -/
theorem normalize_merge_invariant_witness :
    ((normalize rawA).map Issue.label).Nodup ∧
      ((normalize rawA).filter (fun i => i.label = Label.water)).map
          Issue.confidence = [max (0.82 : ℚ) 0.5] :=
  ⟨(normalize_merge_invariant.1 rawA).1,
    normalize_merge_invariant.2 rawA Label.water 0.82 0.5 (by norm_num)
      (by norm_num) (by norm_num) (by norm_num)
      (by simp [occurrences, rawA, mapLabel])⟩

/-- C3 (spec-modelled): every Issue sequence `normalize` produces is
sorted by non-increasing confidence, and entries of equal confidence
appear in taxonomy priority order. -/
theorem normalize_ordering (raw : List (String × ℚ)) :
    (normalize raw).Pairwise (fun a b => b.confidence ≤ a.confidence ∧
      (a.confidence = b.confidence → a.label.priority ≤ b.label.priority)) := by
  have hs : List.Sorted issueLE (normalize raw) :=
    List.sorted_insertionSort issueLE _
  refine List.Pairwise.imp (fun {a b} hab => ?_) hs
  rcases hab with hlt | ⟨heq, hpr⟩
  · exact ⟨le_of_lt hlt, fun h => absurd hlt (by rw [h]; exact lt_irrefl _)⟩
  · exact ⟨le_of_eq heq.symm, fun _ => hpr⟩

/-!
## The Response Composer

Modelled from the spec: `compose(context, intent)` delegates text
generation to the language-generation collaborator (its outcome is the
`gen` argument) and on failure returns a deterministic fallback reply
referencing the known AnalysisRecord state.
-/

/-- One exchange of the session transcript (data model). -/
structure ConversationTurn where
  role : Role
  text : String
  linkedAnalysisId : Option Nat := none
  deriving DecidableEq, Repr

/-- The durable result of one image analysis (data model). -/
structure AnalysisRecord where
  sessionId : String
  imageRef : String
  issues : List Issue
  createdAt : Nat
  deriving DecidableEq, Repr

/-- The ephemeral per-request reasoning context (data model). -/
structure ReasoningContext where
  record : Option AnalysisRecord
  turns : List ConversationTurn
  locationHint : Option String
  deriving DecidableEq, Repr

/-- The closed intent set of the Turn Router. -/
inductive Intent where
  | analysisFollowup
  | costTimelineQuery
  | generalPropertyQuestion
  | newImageExpected
  | unroutable
  deriving DecidableEq, Repr

/-- Failure modes of the language-generation collaborator. -/
inductive GenError where
  | timeout
  | failure
  deriving DecidableEq, Repr

/-- Canonical display name of a taxonomy label. -/
def labelName : Label → String
  | .structural => "structural-damage"
  | .water => "water-damage"
  | .mold => "mold"
  | .cosmetic => "cosmetic-wear"
  | .other => "other"

/-- Display name of a severity tier. -/
def severityName : Severity → String
  | .low => "low"
  | .medium => "medium"
  | .high => "high"

/-- One line of the fallback reply: label and severity of a known issue. -/
def issueLine (i : Issue) : String :=
  labelName i.label ++ " (" ++ severityName i.severity ++ ")"

/-- Comma-separated join. -/
def joinComma : List String → String
  | [] => ""
  | [x] => x
  | x :: y :: ys => x ++ ", " ++ joinComma (y :: ys)

/-- Modelled from the spec: the deterministic fallback reply lists the
known issues and severities when a record exists. -/
def fallbackReply : Option AnalysisRecord → String
  | some r => "I could not generate a full answer right now. Known issues: "
      ++ joinComma (r.issues.map issueLine) ++ "."
  | none => "I could not generate an answer right now. Please try again."

/-- The issue labels present in the current record, if any. -/
def knownLabels : Option AnalysisRecord → List Label
  | some r => r.issues.map Issue.label
  | none => []

/-- Taxonomy labels mentioned by the generated text but absent from the
current record. -/
def hallucinated (record : Option AnalysisRecord) (text : String) : List Label :=
  allLabels.filter (fun l =>
    decide ((labelName l).data <:+: text.data) && !((knownLabels record).contains l))

/-- Modelled from the spec: reconciliation caveats generated claims
about issue labels not present in the record as speculative. -/
def reconcile (ctx : ReasoningContext) (text : String) : String :=
  match hallucinated ctx.record text with
  | [] => text
  | ls => text ++ " (Note: " ++ joinComma (ls.map labelName)
      ++ " mentioned above is not confirmed by the image analysis and is speculative.)"

/-- Modelled from the spec: the Response Composer,
`compose(context, intent) -> (replyText, updatedAnalysisRefIfAny)`.  On
a successful generation the reply is the reconciled text; on failure
the deterministic fallback reply is returned instead of the error. -/
def compose (ctx : ReasoningContext) (_intent : Intent)
    (gen : Except GenError String) : String × Option Nat :=
  match gen with
  | .ok text => (reconcile ctx text, none)
  | .error _ => (fallbackReply ctx.record, none)

lemma infix_joinComma {s : String} {parts : List String} (h : s ∈ parts) :
    s.data <:+: (joinComma parts).data := by
  induction parts with
  | nil => cases h
  | cons x xs ih =>
    cases xs with
    | nil =>
      rw [List.mem_singleton.mp h]
      exact List.infix_refl _
    | cons y ys =>
      rcases List.mem_cons.mp h with rfl | h2
      · refine ⟨[], (", " ++ joinComma (y :: ys)).data, ?_⟩
        simp [joinComma, String.data_append]
      · refine (ih h2).trans ⟨(x ++ ", ").data, [], ?_⟩
        simp [joinComma, String.data_append]

/-- C5 (spec-modelled): on any generation failure `compose` returns the
deterministic fallback reply — no exception reaches the caller — and
when an AnalysisRecord exists, the fallback references its state: the
label-and-severity line of every known issue occurs in the reply. -/
theorem compose_fallback_on_failure (ctx : ReasoningContext) (intent : Intent)
    (err : GenError) :
    compose ctx intent (Except.error err) = (fallbackReply ctx.record, none) ∧
      ∀ r, ctx.record = some r → ∀ i ∈ r.issues,
        (issueLine i).data <:+:
          (compose ctx intent (Except.error err)).1.data := by
  refine ⟨rfl, ?_⟩
  intro r hr i hi
  show (issueLine i).data <:+: (fallbackReply ctx.record).data
  rw [hr]
  refine (infix_joinComma (List.mem_map_of_mem issueLine hi)).trans ?_
  refine ⟨("I could not generate a full answer right now. Known issues: ").data,
    (".").data, ?_⟩
  simp [fallbackReply, String.data_append]

/-- A known water-damage issue at confidence 0.8. -/
def issueW : Issue :=
  { label := .water, confidence := 4 / 5, severity := .high }

/-- A one-issue record (water damage, high severity). -/
def recW : AnalysisRecord :=
  { sessionId := "s1", imageRef := "img-1", createdAt := 0,
    issues := [issueW] }

/-- A context holding `recW`. -/
def ctxW : ReasoningContext :=
  { record := some recW, turns := [], locationHint := none }

/-- C5 witness: a timeout on a cost/timeline query over `recW` yields
the fallback reply, which contains the known water-damage issue line. -/
theorem compose_fallback_on_failure_witness :
    compose ctxW Intent.costTimelineQuery (Except.error GenError.timeout)
        = (fallbackReply (some recW), none) ∧
      (issueLine issueW).data <:+:
        (compose ctxW Intent.costTimelineQuery
          (Except.error GenError.timeout)).1.data := by
  have h := compose_fallback_on_failure ctxW Intent.costTimelineQuery
    GenError.timeout
  exact ⟨h.1, h.2 recW rfl _ (by simp [recW])⟩

end PropertyLoop
